import Mathlib

/-!
Verification of the Tableau export pipeline (`scripts/export_tableau_data.py`).

The development embeds the data-transformation logic of the script as
executable Lean definitions over exact rationals (`ℚ` standing for the
script's floating-point values, `ℤ` minutes standing for timestamps, with
1440 minutes to a day) and proves or refutes the frozen claims about it.

Numeric layer: Lean's `Rat` arithmetic (`+`, `-`, `*`, `/`) is not
kernel-reducible, so the embedding uses `mkRat`-based wrappers `qadd`,
`qsub`, `qmul`, `qdiv`, `qsum`.  Each wrapper is proved equal to the
corresponding field operation (`qadd_eq` etc.), so general theorems reason
with ordinary rational algebra while concrete runs evaluate by `decide`.
-/

/-- Kernel-computable rational addition; equal to `+` by `qadd_eq`. -/
def qadd (a b : ℚ) : ℚ := mkRat (a.num * (b.den : ℤ) + b.num * (a.den : ℤ)) (a.den * b.den)

/-- Kernel-computable rational subtraction; equal to `-` by `qsub_eq`. -/
def qsub (a b : ℚ) : ℚ := mkRat (a.num * (b.den : ℤ) - b.num * (a.den : ℤ)) (a.den * b.den)

/-- Kernel-computable rational multiplication; equal to `*` by `qmul_eq`. -/
def qmul (a b : ℚ) : ℚ := mkRat (a.num * b.num) (a.den * b.den)

/-- Kernel-computable rational division; equal to `/` by `qdiv_eq`. -/
def qdiv (a b : ℚ) : ℚ :=
  if 0 ≤ b.num then mkRat (a.num * (b.den : ℤ)) (a.den * b.num.toNat)
  else mkRat (-(a.num * (b.den : ℤ))) (a.den * (-b.num).toNat)

/-- Kernel-computable sum of a list of rationals; equal to `List.sum` by `qsum_eq`. -/
def qsum (l : List ℚ) : ℚ := l.foldr qadd 0

/-- Minutes in a day: timestamps are modelled as whole minutes (`ℤ`), and the
script's `.dt.days` / `JULIANDAY` arithmetic divides by one day. -/
def minutesPerDay : ℤ := 1440

/-- Maximum of a list, `none` on the empty list: pandas `Series.max()` /
SQL `MAX()` over values with missing entries already removed. -/
def listMax? {α : Type} [LinearOrder α] : List α → Option α
  | [] => none
  | x :: xs =>
    match listMax? xs with
    | none => some x
    | some m => some (max x m)

/-- Minimum of a list, `none` on the empty list. -/
def listMin? {α : Type} [LinearOrder α] : List α → Option α
  | [] => none
  | x :: xs =>
    match listMin? xs with
    | none => some x
    | some m => some (min x m)

/-- pandas linear-interpolation quantile of an ascending-sorted list `a` at
probability `p` (the default `interpolation='linear'` of `quantile`, as used
by `pd.qcut`): with `h = (len-1)*p`, interpolate between `a[⌊h⌋]` and
`a[⌊h⌋+1]`. -/
def quantileSorted (a : List ℚ) (p : ℚ) : ℚ :=
  let n := a.length
  let h : ℚ := qmul (qsub (mkRat n 1) 1) p
  let lo : ℕ := (⌊h⌋).toNat
  if lo + 1 < n then
    qadd (a.getD lo 0) (qmul (qsub h (mkRat lo 1)) (qsub (a.getD (lo + 1) 0) (a.getD lo 0)))
  else a.getD (n - 1) 0

/-- The `q+1` quantile bin edges `pd.qcut` computes, at probabilities
`0, 1/q, …, q/q`, over the sorted non-missing values. -/
def quantileEdges (a : List ℚ) (q : ℕ) : List ℚ :=
  (List.range (q + 1)).map (fun k : ℕ => quantileSorted a (mkRat (k : ℤ) q))

/-- Bin index of value `v` for right-closed bins with edges `edges`
(`include_lowest` behaviour of `pd.qcut`: the first bin is closed on the
left): the least `i` with `edges[i] < v ≤ edges[i+1]`, allowing `v = edges[0]`
into bin 0.  `none` when `v` lies outside the edge range. -/
def binOf (edges : List ℚ) (v : ℚ) : Option ℕ :=
  if edges.isEmpty then none
  else if v < edges.getD 0 0 then none
  else (List.range (edges.length - 1)).find? (fun i => decide (v ≤ edges.getD (i + 1) 0))

/-- `pd.qcut(values, q, labels=labels, duplicates=…)`.

* missing input values (`none`) receive a missing category, exactly like NaN;
* edges are the linear-interpolation quantiles of the non-missing values;
* with `duplicates='drop'` (`dropDuplicates = true`) duplicated edges are
  merged; with the default `'raise'` duplicated edges raise `ValueError`;
* after that, `_bins_to_cuts` checks `len(labels) == len(bin_edges) - 1` and
  raises `ValueError` ("Bin labels must be one fewer than the number of bin
  edges") on mismatch — this is what makes an explicit 5-element label list
  incompatible with actually dropping edges. -/
def pdQcut (values : List (Option ℚ)) (q : ℕ) (labels : List ℕ) (dropDuplicates : Bool) :
    Except Unit (List (Option ℕ)) :=
  let present := values.filterMap id
  let sorted := List.insertionSort (· ≤ ·) present
  let edges := quantileEdges sorted q
  let uniqueEdges := edges.dedup
  if dropDuplicates = false ∧ uniqueEdges.length ≠ edges.length then .error ()
  else
    let binEdges := if dropDuplicates then uniqueEdges else edges
    if labels.length ≠ binEdges.length - 1 then .error ()
    else .ok (values.map (fun v? => v?.bind (fun v => (binOf binEdges v).bind (fun i => labels[i]?))))

/-- `Series.rank(method='first')` at position `i`: one plus the number of
positions that sort strictly before `i` when ordering by value and breaking
ties by original position. -/
def rankFirstAt (xs : List ℚ) (i : ℕ) : ℕ :=
  1 + (List.range xs.length).countP (fun j =>
    decide (xs.getD j 0 < xs.getD i 0) || (decide (xs.getD j 0 = xs.getD i 0) && decide (j < i)))

/-- `Series.rank(method='first')` as a column of rationals (pandas returns a
float column). -/
def rankFirst (xs : List ℚ) : List ℚ :=
  (List.range xs.length).map (fun i => mkRat (rankFirstAt xs i) 1)

/-- Line 235 of the script: the frequency score column
`pd.qcut(rfm['frequency'].rank(method='first'), 5, labels=[1, 2, 3, 4, 5])`. -/
def fScoreColumn (freqs : List ℚ) : Except Unit (List (Option ℕ)) :=
  pdQcut ((rankFirst freqs).map some) 5 [1, 2, 3, 4, 5] false

/-- The rational list `[1, 2, …, n]`: the sorted form of a
`rank(method='first')` column of length `n`, whose values are exactly the
positions `1…n` in some order. -/
def rampList (n : ℕ) : List ℚ := (List.range n).map (fun i => mkRat ((i + 1 : ℕ) : ℤ) 1)

/-- One row of the `customer_orders` SQL result of `export_customer_segments`
(customers ⋈ orders): `purchaseTs` is `none` when the purchase timestamp is
missing (`NaT` after `pd.to_datetime`). -/
structure SegOrder where
  customer : ℕ
  city : String
  state : String
  orderId : ℕ
  purchaseTs : Option ℤ
  status : String
deriving DecidableEq, Repr

/-- One row of the raw `order_payments` table (only the columns the
segmentation uses). -/
structure PaymentRow where
  orderId : ℕ
  value : ℚ
deriving DecidableEq, Repr

/-- The `WHERE o.order_status = 'delivered'` filter of the SQL query. -/
def deliveredOrders (orders : List SegOrder) : List SegOrder :=
  orders.filter (fun o => o.status = "delivered")

/-- `SELECT order_id, SUM(payment_value) … GROUP BY order_id` followed by the
left merge: the summed payment value of an order, `none` (NaN) when the order
has no payment rows. -/
def orderPaymentValue (pays : List PaymentRow) (oid : ℕ) : Option ℚ :=
  let vs := (pays.filter (fun p => p.orderId = oid)).map (fun p => p.value)
  if vs.isEmpty then none else some (qsum vs)

/-- Distinct values in ascending order: the group keys produced by pandas
`groupby` (which sorts keys by default). -/
def sortedDistinct (l : List ℕ) : List ℕ := List.insertionSort (· ≤ ·) l.dedup

/-- The rows of one customer's group. -/
def custGroup (rows : List SegOrder) (c : ℕ) : List SegOrder :=
  rows.filter (fun o => o.customer = c)

/-- Line 221: `analysis_date = customer_orders['order_purchase_timestamp'].max() + pd.Timedelta(days=1)`. -/
def analysisDate (rows : List SegOrder) : Option ℤ :=
  (listMax? (rows.filterMap (fun o => o.purchaseTs))).map (fun t => t + minutesPerDay)

/-- Last purchase timestamp of a customer (`max`, skipping missing values);
`none` when every timestamp in the group is missing. -/
def custLastTs (rows : List SegOrder) (c : ℕ) : Option ℤ :=
  listMax? ((custGroup rows c).filterMap (fun o => o.purchaseTs))

/-- First purchase timestamp of a customer (`min`, skipping missing values). -/
def custFirstTs (rows : List SegOrder) (c : ℕ) : Option ℤ :=
  listMin? ((custGroup rows c).filterMap (fun o => o.purchaseTs))

/-- Recency: `(analysis_date - x.max()).days` — whole days by floor division,
missing when the customer's last purchase timestamp is missing. -/
def custRecency (rows : List SegOrder) (c : ℕ) : Option ℤ :=
  (analysisDate rows).bind (fun ad =>
    (custLastTs rows c).map (fun t => Int.fdiv (ad - t) minutesPerDay))

/-- Frequency: `'order_id': 'count'` — the size of the customer's group. -/
def custFrequency (rows : List SegOrder) (c : ℕ) : ℕ := (custGroup rows c).length

/-- Monetary: `'payment_value': 'sum'` — pandas sums with `skipna`, so missing
per-order payment values contribute nothing (an all-missing group sums to 0). -/
def custMonetary (rows : List SegOrder) (pays : List PaymentRow) (c : ℕ) : ℚ :=
  qsum (((custGroup rows c).map (fun o => orderPaymentValue pays o.orderId)).filterMap id)

/-- `astype(str)` on a nullable `Int64` score: a missing value renders as the
literal string `"<NA>"`, a present value as its digits. -/
def scoreText : Option ℕ → String
  | none => "<NA>"
  | some k => toString k

/-- Lines 247–265, `segment_customer`: `'Unknown'` when the recency or
frequency score is missing, otherwise the ordered decision table on the two
scores. -/
def segmentCustomer (r f : Option ℕ) : String :=
  match r, f with
  | some r, some f =>
    if 4 ≤ r ∧ 4 ≤ f then "Champions"
    else if 3 ≤ r ∧ 3 ≤ f then "Loyal Customers"
    else if 4 ≤ r ∧ f ≤ 2 then "New Customers"
    else if 3 ≤ r ∧ f ≤ 2 then "Potential Loyalists"
    else if r ≤ 2 ∧ 3 ≤ f then "At Risk"
    else if r ≤ 2 ∧ f ≤ 2 then "Hibernating"
    else "Need Attention"
  | _, _ => "Unknown"

/-- One row of the `customer_segments` extract. -/
structure SegRow where
  customer : ℕ
  recency : Option ℤ
  frequency : ℕ
  monetary : ℚ
  customerCity : String
  customerState : String
  rScore : Option ℕ
  fScore : Option ℕ
  mScore : Option ℕ
  rfmScore : String
  segment : String
  firstPurchaseTs : Option ℤ
  lastPurchaseTs : Option ℤ
  tenureDays : Option ℤ
  avgOrderValue : ℚ
deriving DecidableEq, Repr

/-- The `i`-th output row of `export_customer_segments`, assembled from the
grouped metrics and the three score columns. -/
def buildSegRow (rows : List SegOrder) (pays : List PaymentRow) (cs : List ℕ)
    (rS fS mS : List (Option ℕ)) (i : ℕ) : SegRow :=
  let c := cs.getD i 0
  let r := rS.getD i none
  let f := fS.getD i none
  let m := mS.getD i none
  let grp := custGroup rows c
  let fp := custFirstTs rows c
  let lp := custLastTs rows c
  { customer := c
    recency := custRecency rows c
    frequency := custFrequency rows c
    monetary := custMonetary rows pays c
    customerCity := (grp.head?).elim "" (fun o => o.city)
    customerState := (grp.head?).elim "" (fun o => o.state)
    rScore := r
    fScore := f
    mScore := m
    rfmScore := scoreText r ++ scoreText f ++ scoreText m
    segment := segmentCustomer r f
    firstPurchaseTs := fp
    lastPurchaseTs := lp
    tenureDays := lp.bind (fun l2 => fp.map (fun f2 => Int.fdiv (l2 - f2) minutesPerDay))
    avgOrderValue := qdiv (custMonetary rows pays c) (mkRat (custFrequency rows c) 1) }

/-- `export_customer_segments` (lines 189–285): RFM metrics per distinct
customer, the three quantile scores (recency reversed `[5,4,3,2,1]` with
`duplicates='drop'`, frequency on tie-broken ranks, monetary `[1,2,3,4,5]`
with `duplicates='drop'`), the concatenated score string, the segment, and
the auxiliary date/value columns.  Any `ValueError` raised by a `qcut` aborts
the pass (`Except.error`). -/
def exportCustomerSegments (orders : List SegOrder) (pays : List PaymentRow) :
    Except Unit (List SegRow) :=
  let rows := deliveredOrders orders
  let cs := sortedDistinct (rows.map (fun o => o.customer))
  let recencyCol : List (Option ℚ) := cs.map (fun c => (custRecency rows c).map (fun z => (z : ℚ)))
  let freqCol : List ℚ := cs.map (fun c => mkRat (custFrequency rows c) 1)
  let monCol : List ℚ := cs.map (fun c => custMonetary rows pays c)
  match pdQcut recencyCol 5 [5, 4, 3, 2, 1] true with
  | .error e => .error e
  | .ok rS =>
    match fScoreColumn freqCol with
    | .error e => .error e
    | .ok fS =>
      match pdQcut (monCol.map some) 5 [1, 2, 3, 4, 5] true with
      | .error e => .error e
      | .ok mS =>
        .ok ((List.range cs.length).map (buildSegRow rows pays cs rS fS mS))

/-- The rows of the `customer_segments` extract on a successful run, `[]` when
the pass raised. -/
def segOutput (orders : List SegOrder) (pays : List PaymentRow) : List SegRow :=
  match exportCustomerSegments orders pays with
  | .ok rs => rs
  | .error _ => []

/-! ### Orders fact table: temporal fields (lines 100–119) -/

/-- The timestamp columns of one `orders_fact` row after `pd.to_datetime`
(`none` = `NaT`). -/
structure OrderTimesRow where
  status : String
  purchaseTs : Option ℤ
  deliveredTs : Option ℤ
  estimatedTs : Option ℤ
deriving DecidableEq, Repr

/-- Lines 102–106: `actual_delivery_days` — whole days of
`delivered - purchase`, computed only on the `delivered` mask, `NaN`
elsewhere and whenever either timestamp is missing. -/
def actualDeliveryDays (r : OrderTimesRow) : Option ℤ :=
  if r.status = "delivered" then
    r.deliveredTs.bind (fun d => r.purchaseTs.map (fun p => Int.fdiv (d - p) minutesPerDay))
  else none

/-- Lines 108–112: `estimated_delivery_days`. -/
def estimatedDeliveryDays (r : OrderTimesRow) : Option ℤ :=
  if r.status = "delivered" then
    r.estimatedTs.bind (fun e => r.purchaseTs.map (fun p => Int.fdiv (e - p) minutesPerDay))
  else none

/-- Lines 114–116: `delivery_delay_days = actual - estimated` (missing when
either operand is missing). -/
def deliveryDelayDays (r : OrderTimesRow) : Option ℤ :=
  (actualDeliveryDays r).bind (fun a => (estimatedDeliveryDays r).map (fun e => a - e))

/-- Lines 118–119: `(delivery_delay_days <= 0).map({True:'On Time',False:'Late'})`
— pandas evaluates `NaN <= 0` to `False`, so a missing delay maps to
`'Late'` — followed by `orders_fact.loc[~delivered_mask, 'on_time_delivery'] = None`. -/
def onTimeDelivery (r : OrderTimesRow) : Option String :=
  if r.status = "delivered" then
    some (match deliveryDelayDays r with
          | some d => if d ≤ 0 then "On Time" else "Late"
          | none => "Late")
  else none

/-! ### Orders fact table: join structure (lines 37–83) -/

/-- One row of the `orders` side of the fact table query. -/
structure OrderRow where
  orderId : ℕ
  customerId : ℕ
  status : String
deriving DecidableEq, Repr

/-- One row of the `customers` table. -/
structure CustomerRow where
  customerId : ℕ
  customerUniqueId : ℕ
  city : String
  state : String
deriving DecidableEq, Repr

/-- One raw row of `order_payments`. -/
structure OrderPaymentRow where
  orderId : ℕ
  value : ℚ
  ptype : String
  installments : ℕ
deriving DecidableEq, Repr

/-- One row of the per-order payment aggregate (lines 57–66):
`SUM(payment_value), MAX(payment_type), SUM(payment_installments), COUNT(*)`
grouped by `order_id`. -/
structure PaymentAgg where
  orderId : ℕ
  totalPaymentValue : ℚ
  primaryPaymentType : String
  totalInstallments : ℕ
  paymentCount : ℕ
deriving DecidableEq, Repr

/-- One row of `order_reviews`. -/
structure ReviewRow where
  orderId : ℕ
  reviewScore : ℕ
  reviewCreationTs : ℤ
deriving DecidableEq, Repr

/-- `left.merge(right, on=key, how='left')` (also the semantics of a SQL
`LEFT JOIN`): every left row paired with each matching right row, or with an
explicit missing right side when there is no match. -/
def pandasLeftMerge {α β : Type} (left : List α) (right : List β)
    (kl : α → ℕ) (kr : β → ℕ) : List (α × Option β) :=
  left.flatMap (fun a =>
    if (right.filter (fun b => kr b = kl a)).isEmpty then [(a, none)]
    else (right.filter (fun b => kr b = kl a)).map (fun b => (a, some b)))

/-- SQL `MAX()` over a text column. -/
def maxString (l : List String) : String := l.foldr max ""

/-- The distinct `order_id` keys of the payment aggregation (`GROUP BY`
produces one output row per distinct key, in sorted order). -/
def paymentKeys (ps : List OrderPaymentRow) : List ℕ :=
  sortedDistinct (ps.map (fun p => p.orderId))

/-- Lines 57–66: the payments aggregated to one row per `order_id`. -/
def aggPayments (ps : List OrderPaymentRow) : List PaymentAgg :=
  (paymentKeys ps).map (fun oid =>
    let g := ps.filter (fun p => p.orderId = oid)
    { orderId := oid
      totalPaymentValue := qsum (g.map (fun p => p.value))
      primaryPaymentType := maxString (g.map (fun p => p.ptype))
      totalInstallments := (g.map (fun p => p.installments)).sum
      paymentCount := g.length })

/-- Helper for `drop_duplicates(subset=['order_id'], keep='first')`: keeps a
row only when its key has not been seen yet. -/
def dropDupFirstAux (seen : List ℕ) : List ReviewRow → List ReviewRow
  | [] => []
  | r :: rs =>
    if r.orderId ∈ seen then dropDupFirstAux seen rs
    else r :: dropDupFirstAux (r.orderId :: seen) rs

/-- Line 79: `reviews_df.drop_duplicates(subset=['order_id'], keep='first')`. -/
def dropDupFirst (rs : List ReviewRow) : List ReviewRow := dropDupFirstAux [] rs

/-- Lines 37–83: the join structure of `orders_fact` — orders left-joined
with customers, then with the per-order payment aggregate, then with the
deduplicated reviews. -/
def ordersFactJoined (orders : List OrderRow) (customers : List CustomerRow)
    (pays : List OrderPaymentRow) (reviews : List ReviewRow) :
    List (((OrderRow × Option CustomerRow) × Option PaymentAgg) × Option ReviewRow) :=
  pandasLeftMerge
    (pandasLeftMerge
      (pandasLeftMerge orders customers (fun o => o.customerId) (fun c => c.customerId))
      (aggPayments pays) (fun t => t.1.orderId) (fun p => p.orderId))
    (dropDupFirst reviews) (fun t => t.1.1.orderId) (fun r => r.orderId)

/-! ### Monthly metrics: new vs returning customers (lines 360–372) -/

/-- One delivered order of the monthly-metrics dataframe: its customer and
purchase month (months encoded as naturals in chronological order). -/
structure DeliveredOrderMonth where
  customer : ℕ
  month : ℕ
deriving DecidableEq, Repr

/-- One row of `monthly_metrics` restricted to the customer-count columns of
the claim. -/
structure MonthlyRow where
  month : ℕ
  uniqueCustomers : ℕ
  newCustomers : Option ℕ
  returningCustomers : Option ℤ
deriving DecidableEq, Repr

/-- Group keys of `delivered.groupby('order_month')`. -/
def monthKeys (rows : List DeliveredOrderMonth) : List ℕ :=
  sortedDistinct (rows.map (fun r => r.month))

/-- Line 362: first delivered-purchase month of a customer over the entire
history. -/
def firstPurchaseMonth (rows : List DeliveredOrderMonth) (c : ℕ) : Option ℕ :=
  listMin? ((rows.filter (fun r => r.customer = c)).map (fun r => r.month))

/-- `'customer_unique_id': 'nunique'` for a month. -/
def uniqueCustomersIn (rows : List DeliveredOrderMonth) (m : ℕ) : ℕ :=
  ((rows.filter (fun r => r.month = m)).map (fun r => r.customer)).dedup.length

/-- Lines 365–368: distinct customers of the month whose first purchase month
is that month. -/
def newCustomersIn (rows : List DeliveredOrderMonth) (m : ℕ) : ℕ :=
  ((rows.filter (fun r => r.month = m ∧ firstPurchaseMonth rows r.customer = some m)).map
    (fun r => r.customer)).dedup.length

/-- Lines 360–372: per month, the distinct-customer count, the
`new_customers` column (left-merged, hence missing for a month that appears
in `monthly` but not in the new-customer table — i.e. a month with zero new
customers), and `returning_customers = unique_customers - new_customers`
(missing when `new_customers` is missing). -/
def monthlyCustomerRows (rows : List DeliveredOrderMonth) : List MonthlyRow :=
  (monthKeys rows).map (fun m =>
    let u := uniqueCustomersIn rows m
    let n := newCustomersIn rows m
    if n = 0 then ⟨m, u, none, none⟩
    else ⟨m, u, some n, some ((u : ℤ) - (n : ℤ))⟩)

/-! ### Seller performance scorer (lines 390–487) -/

/-- One row of the merged seller table just before scoring (line 462):
revenue is always present (an inner-joined item sum); the review mean and
on-time rate come through left joins and may be missing. -/
structure SellerAggRow where
  sellerId : ℕ
  totalRevenue : ℚ
  avgReviewScore : Option ℚ
  onTimeRate : Option ℚ
deriving DecidableEq, Repr

/-- Lines 466–469: `revenue_score = (rev - min) / (max - min) * 100`.
When every seller has the same revenue the denominator is zero and the
float division `0.0/0.0` produces `NaN` (`none`); there is no guard. -/
def revenueScores (rows : List SellerAggRow) : List (Option ℚ) :=
  let revs := rows.map (fun s => s.totalRevenue)
  match listMin? revs, listMax? revs with
  | some lo, some hi =>
      revs.map (fun r =>
        if qsub hi lo = 0 then none
        else some (qmul (qdiv (qsub r lo) (qsub hi lo)) 100))
  | _, _ => []

/-- Line 470: `review_score_normalized = avg_review_score / 5 * 100`. -/
def reviewScoreNormalized (s : SellerAggRow) : Option ℚ :=
  s.avgReviewScore.map (fun v => qmul (qdiv v 5) 100)

/-- Line 471: `delivery_score = on_time_rate * 100`. -/
def deliveryScore (s : SellerAggRow) : Option ℚ :=
  s.onTimeRate.map (fun v => qmul v 100)

/-- IEEE-754 / numpy rounding to the nearest integer with ties to even, as
used by `Series.round`. -/
def roundHalfEven (x : ℚ) : ℤ :=
  let f := ⌊x⌋
  let r := qsub x (mkRat f 1)
  if r < mkRat 1 2 then f
  else if mkRat 1 2 < r then f + 1
  else if f % 2 = 0 then f else f + 1

/-- `Series.round(2)`. -/
def roundTo2 (x : ℚ) : ℚ := qdiv (mkRat (roundHalfEven (qmul x 100)) 1) 100

/-- Lines 474–478: `composite_score = (0.3*revenue_score +
0.4*review_score_normalized + 0.3*delivery_score).round(2)`; any missing
(`NaN`) operand propagates. -/
def compositeScores (rows : List SellerAggRow) : List (Option ℚ) :=
  let revS := revenueScores rows
  (List.range rows.length).map (fun i =>
    let s := rows.getD i ⟨0, 0, none, none⟩
    match revS.getD i none, reviewScoreNormalized s, deliveryScore s with
    | some a, some b, some c =>
        some (roundTo2 (qadd (qadd (qmul a (mkRat 3 10)) (qmul b (mkRat 4 10)))
          (qmul c (mkRat 3 10))))
    | _, _, _ => none)

/-- Line 487: `composite_score.rank(ascending=False, method='min')` — the
rank of a present score is one plus the number of strictly greater present
scores; missing scores receive a missing rank. -/
def rankSellersMinDesc (scores : List (Option ℚ)) : List (Option ℕ) :=
  scores.map (fun s => s.map (fun v =>
    1 + scores.countP (fun t =>
      match t with
      | some w => decide (v < w)
      | none => false)))

/-- The `seller_rank` column. -/
def sellerRanks (rows : List SellerAggRow) : List (Option ℕ) :=
  rankSellersMinDesc (compositeScores rows)

/-- Lines 425–434: the seller-side on-time predicate
`JULIANDAY(delivered) - JULIANDAY(purchase) <= JULIANDAY(estimated) - JULIANDAY(purchase)`
— `JULIANDAY` differences are fractional days, not truncated whole days. -/
def sellerIsOnTime (p d e : ℤ) : Bool :=
  decide (qdiv (mkRat (d - p) 1) (mkRat minutesPerDay 1) ≤
    qdiv (mkRat (e - p) 1) (mkRat minutesPerDay 1))

/-! ### Concrete inputs used by counterexamples and witnesses -/

/-- Five delivered customers whose orders all share one purchase timestamp:
every recency equals 1 day, so the recency quintile split is degenerate. -/
def qcutDegenOrders : List SegOrder :=
  [⟨1, "a", "A", 101, some 0, "delivered"⟩,
   ⟨2, "b", "B", 102, some 0, "delivered"⟩,
   ⟨3, "c", "C", 103, some 0, "delivered"⟩,
   ⟨4, "d", "D", 104, some 0, "delivered"⟩,
   ⟨5, "e", "E", 105, some 0, "delivered"⟩]

/-- Distinct payments for the degenerate population. -/
def qcutDegenPays : List PaymentRow :=
  [⟨101, 10⟩, ⟨102, 20⟩, ⟨103, 30⟩, ⟨104, 40⟩, ⟨105, 50⟩]

/-- Six delivered customers; customer 6's purchase timestamp is missing
(`NaT`), so its recency — and hence its recency score — is missing while the
other two scores are defined. -/
def segMixedOrders : List SegOrder :=
  [⟨1, "a", "A", 101, some 0, "delivered"⟩,
   ⟨2, "b", "B", 102, some 14400, "delivered"⟩,
   ⟨3, "c", "C", 103, some 28800, "delivered"⟩,
   ⟨4, "d", "D", 104, some 43200, "delivered"⟩,
   ⟨5, "e", "E", 105, some 57600, "delivered"⟩,
   ⟨6, "f", "F", 106, none, "delivered"⟩]

/-- Payments for the mixed population. -/
def segMixedPays : List PaymentRow :=
  [⟨101, 10⟩, ⟨102, 20⟩, ⟨103, 30⟩, ⟨104, 40⟩, ⟨105, 50⟩, ⟨106, 60⟩]

/-- Five delivered customers with distinct purchase timestamps and payments:
a fully regular segmentation run. -/
def segDatedOrders : List SegOrder :=
  [⟨1, "a", "A", 101, some 0, "delivered"⟩,
   ⟨2, "b", "B", 102, some 14400, "delivered"⟩,
   ⟨3, "c", "C", 103, some 28800, "delivered"⟩,
   ⟨4, "d", "D", 104, some 43200, "delivered"⟩,
   ⟨5, "e", "E", 105, some 57600, "delivered"⟩]

/-- Payments for the regular population. -/
def segDatedPays : List PaymentRow :=
  [⟨101, 10⟩, ⟨102, 20⟩, ⟨103, 30⟩, ⟨104, 40⟩, ⟨105, 50⟩]

/-- The output row of customer 6 of the mixed population: a missing recency
score, a `"<NA>55"` combined code and an `'Unknown'` segment. -/
def segMixedRow6 : SegRow :=
  ⟨6, none, 1, 60, "f", "F", none, some 5, some 5, "<NA>55", "Unknown", none, none, none, 60⟩

/-- Two sellers with identical total revenue (and otherwise complete data):
the zero-variance input of the revenue normalization. -/
def equalRevenueSellers : List SellerAggRow :=
  [⟨1, 100, some 4, some (mkRat 1 2)⟩, ⟨2, 100, some 5, some 1⟩]

/-- A delivered order whose customer-delivery timestamp is missing while the
estimated date is present. -/
def deliveredNaTRow : OrderTimesRow := ⟨"delivered", some 0, none, some 14400⟩

/-- One customer purchasing in two consecutive months: month 2 has one
unique customer and zero new customers. -/
def monthPopRepeat : List DeliveredOrderMonth := [⟨1, 1⟩, ⟨1, 2⟩]

/-- The first output row of the regular five-customer population. -/
def segDatedRow1 : SegRow :=
  ⟨1, some 41, 1, 10, "a", "A", some 1, some 1, some 1, "111", "Hibernating",
    some 0, some 0, some 0, 10⟩

/-- Orders for the join witness: order 2 is not delivered, order 3 references
a customer that does not exist. -/
def joinOrders : List OrderRow :=
  [⟨1, 10, "delivered"⟩, ⟨2, 11, "shipped"⟩, ⟨3, 99, "delivered"⟩]

/-- Customers for the join witness (unique `customer_id`s; no customer 99). -/
def joinCustomers : List CustomerRow :=
  [⟨10, 500, "x", "X"⟩, ⟨11, 501, "y", "Y"⟩]

/-- Raw payments for the join witness: order 1 has two payment rows. -/
def joinPays : List OrderPaymentRow :=
  [⟨1, 30, "credit_card", 3⟩, ⟨1, 20, "voucher", 1⟩, ⟨3, 15, "boleto", 1⟩]

/-- Raw reviews for the join witness: order 1 has a duplicate review. -/
def joinReviews : List ReviewRow :=
  [⟨1, 5, 0⟩, ⟨1, 1, 10⟩, ⟨3, 4, 20⟩]

theorem qadd_eq (a b : ℚ) : qadd a b = a + b := by
  have ha : (a.den : ℚ) ≠ 0 := by exact_mod_cast a.den_nz
  have hb : (b.den : ℚ) ≠ 0 := by exact_mod_cast b.den_nz
  unfold qadd
  rw [Rat.mkRat_eq_div]
  push_cast
  conv_rhs => rw [← Rat.num_div_den a, ← Rat.num_div_den b]
  field_simp

theorem qsub_eq (a b : ℚ) : qsub a b = a - b := by
  have ha : (a.den : ℚ) ≠ 0 := by exact_mod_cast a.den_nz
  have hb : (b.den : ℚ) ≠ 0 := by exact_mod_cast b.den_nz
  unfold qsub
  rw [Rat.mkRat_eq_div]
  push_cast
  conv_rhs => rw [← Rat.num_div_den a, ← Rat.num_div_den b]
  field_simp
  ring

theorem qmul_eq (a b : ℚ) : qmul a b = a * b := by
  have ha : (a.den : ℚ) ≠ 0 := by exact_mod_cast a.den_nz
  have hb : (b.den : ℚ) ≠ 0 := by exact_mod_cast b.den_nz
  unfold qmul
  rw [Rat.mkRat_eq_div]
  push_cast
  conv_rhs => rw [← Rat.num_div_den a, ← Rat.num_div_den b]
  field_simp

theorem qdiv_eq (a b : ℚ) : qdiv a b = a / b := by
  have ha : (a.den : ℚ) ≠ 0 := by exact_mod_cast a.den_nz
  have hb : (b.den : ℚ) ≠ 0 := by exact_mod_cast b.den_nz
  unfold qdiv
  rcases lt_trichotomy b.num 0 with hneg | hzero | hpos
  · rw [if_neg (by omega)]
    rw [Rat.mkRat_eq_div]
    have htn : ((-b.num).toNat : ℤ) = -b.num := Int.toNat_of_nonneg (by omega)
    have htnq : (((-b.num).toNat : ℕ) : ℚ) = -(b.num : ℚ) := by exact_mod_cast htn
    push_cast
    rw [htnq]
    conv_rhs => rw [← Rat.num_div_den a, ← Rat.num_div_den b]
    have hnum : (b.num : ℚ) ≠ 0 := by exact_mod_cast (by omega : b.num ≠ 0)
    field_simp
  · rw [if_pos (by omega)]
    have hb0 : b = 0 := by
      have := Rat.num_eq_zero.mp hzero
      exact this
    rw [hb0]
    simp [Rat.mkRat_eq_div]
  · rw [if_pos (by omega)]
    rw [Rat.mkRat_eq_div]
    have htn : (b.num.toNat : ℤ) = b.num := Int.toNat_of_nonneg (by omega)
    have htnq : ((b.num.toNat : ℕ) : ℚ) = (b.num : ℚ) := by exact_mod_cast htn
    push_cast
    rw [htnq]
    conv_rhs => rw [← Rat.num_div_den a, ← Rat.num_div_den b]
    have hnum : (b.num : ℚ) ≠ 0 := by exact_mod_cast (by omega : b.num ≠ 0)
    field_simp

theorem qsum_eq (l : List ℚ) : qsum l = l.sum := by
  induction l with
  | nil => rfl
  | cons x xs ih =>
    simp [qsum, List.foldr] at *
    rw [qadd_eq, ih]

theorem mkRat_intCast (z : ℤ) : mkRat z 1 = (z : ℚ) := by
  rw [Rat.mkRat_eq_div]
  norm_num

theorem mkRat_natCast (n : ℕ) : mkRat (n : ℤ) 1 = (n : ℚ) := by
  rw [Rat.mkRat_eq_div]
  norm_num

/-! ### C1 -/

/-- **C1.** The claim says a degenerate quintile split is recovered locally
("missing" scores, pass still completes).  In fact `pd.qcut` with the explicit
5-element label list and `duplicates='drop'` raises once edges are merged, so
on five customers with identical recency the whole segmentation pass fails
and produces no output rows. -/
theorem C1_degenerate_quantile_split_raises :
    (exportCustomerSegments qcutDegenOrders qcutDegenPays).toOption = none ∧
    segOutput qcutDegenOrders qcutDegenPays = [] := by decide

/-! ### C2 -/

/-- **C2.** The claim says the zero-variance revenue normalization is
explicitly guarded (revenue_score 100 for all, no NaN in composite_score).
In fact with two sellers of identical revenue the code divides zero by zero:
every revenue_score is NaN and NaN propagates into every composite_score
(and into every rank). -/
theorem C2_zero_variance_normalization_nan :
    revenueScores equalRevenueSellers = [none, none] ∧
    compositeScores equalRevenueSellers = [none, none] ∧
    sellerRanks equalRevenueSellers = [none, none] := by decide

/-! ### C4 -/

/-- **C4 counterexample.** A delivered order with a missing delivery
timestamp has missing duration fields but a *present* on-time value
(`'Late'`), refuting "on_time_delivery is non-missing iff both duration
fields are non-missing". -/
theorem C4_counterexample :
    ¬ ((onTimeDelivery deliveredNaTRow ≠ none) ↔
       (actualDeliveryDays deliveredNaTRow ≠ none ∧
        estimatedDeliveryDays deliveredNaTRow ≠ none)) := by decide

theorem onTimeDelivery_some_iff (r : OrderTimesRow) (a e : ℤ)
    (ha : actualDeliveryDays r = some a) (he : estimatedDeliveryDays r = some e) :
    onTimeDelivery r = some "On Time" ↔ a - e ≤ 0 := by
  have hdel : r.status = "delivered" := by
    by_contra h
    unfold actualDeliveryDays at ha
    rw [if_neg h] at ha
    exact Option.noConfusion ha
  have hdelay : deliveryDelayDays r = some (a - e) := by
    unfold deliveryDelayDays
    rw [ha, he]
    rfl
  unfold onTimeDelivery
  rw [if_pos hdel, hdelay]
  show (some (if a - e ≤ 0 then "On Time" else "Late") = some "On Time") ↔ a - e ≤ 0
  by_cases hle : a - e ≤ 0
  · rw [if_pos hle]
    exact iff_of_true rfl hle
  · rw [if_neg hle]
    exact iff_of_false (fun hc => absurd (Option.some.inj hc) (by decide)) hle

/-- **C4 (amended).** `on_time_delivery` is non-missing iff the row is in the
delivered mask; when both duration fields are present it is `'On Time'`
exactly when `delivery_delay_days ≤ 0` (ties on time); and a delivered row
whose delay is missing gets the default `'Late'` (pandas `NaN <= 0` is
`False`), not a missing value. -/
theorem C4_on_time_delivery_amended (r : OrderTimesRow) :
    ((onTimeDelivery r ≠ none) ↔ r.status = "delivered") ∧
    (∀ a e, actualDeliveryDays r = some a → estimatedDeliveryDays r = some e →
      (onTimeDelivery r = some "On Time" ↔ a - e ≤ 0)) ∧
    (r.status = "delivered" → deliveryDelayDays r = none →
      onTimeDelivery r = some "Late") := by
  refine ⟨?_, fun a e ha he => onTimeDelivery_some_iff r a e ha he, ?_⟩
  · unfold onTimeDelivery
    split_ifs with h <;> simp [h]
  · intro h hnone
    unfold onTimeDelivery
    rw [if_pos h, hnone]

/-- Witness for C4 (amended): the concrete delivered order of the spec's §8
scenario (purchase at minute 0, delivered after 5 days, estimated 10 days)
is `'On Time'`. -/
theorem C4_on_time_delivery_amended_witness :
    onTimeDelivery ⟨"delivered", some 0, some 7200, some 14400⟩ = some "On Time" ↔
      (5 - 10 : ℤ) ≤ 0 :=
  (C4_on_time_delivery_amended ⟨"delivered", some 0, some 7200, some 14400⟩).2.1 5 10
    (by decide) (by decide)

/-! ### C5 -/

/-- **C5 counterexample.** Purchase at minute 0, delivered at 10 days + 1
hour, estimated at exactly 10 days: `orders_fact` truncates both durations to
10 whole days and reports `'On Time'`, while the seller-side `JULIANDAY`
comparison of fractional days reports late — the two predicates disagree. -/
theorem C5_counterexample :
    ¬ ((sellerIsOnTime 0 14460 14400 = true) ↔
       (onTimeDelivery ⟨"delivered", some 0, some 14460, some 14400⟩ = some "On Time")) := by
  decide

/-- **C5 (amended).** The seller-side predicate compares *fractional*
`JULIANDAY` day differences — it holds exactly when the delivery timestamp is
at or before the estimated timestamp — and agrees with the whole-day
`orders_fact` predicate whenever both durations are whole numbers of days. -/
theorem C5_seller_on_time_amended (p d e : ℤ)
    (hd : minutesPerDay ∣ (d - p)) (he : minutesPerDay ∣ (e - p)) :
    ((sellerIsOnTime p d e = true) ↔ d ≤ e) ∧
    ((sellerIsOnTime p d e = true) ↔
      (onTimeDelivery ⟨"delivered", some p, some d, some e⟩ = some "On Time")) := by
  obtain ⟨a, ha⟩ := hd
  obtain ⟨b, hb⟩ := he
  have hmp : (0 : ℚ) < ((minutesPerDay : ℤ) : ℚ) := by
    norm_num [minutesPerDay]
  have hfrac : (sellerIsOnTime p d e = true) ↔ d ≤ e := by
    unfold sellerIsOnTime
    rw [decide_eq_true_eq, qdiv_eq, qdiv_eq, mkRat_intCast, mkRat_intCast, mkRat_intCast,
      div_le_div_iff_of_pos_right hmp]
    rw [Int.cast_le]
    omega
  have hA : actualDeliveryDays ⟨"delivered", some p, some d, some e⟩ = some a := by
    have h1 : actualDeliveryDays ⟨"delivered", some p, some d, some e⟩ =
        some (Int.fdiv (d - p) minutesPerDay) := rfl
    rw [h1, ha, Int.mul_fdiv_cancel_left a (by norm_num [minutesPerDay])]
  have hE : estimatedDeliveryDays ⟨"delivered", some p, some d, some e⟩ = some b := by
    have h1 : estimatedDeliveryDays ⟨"delivered", some p, some d, some e⟩ =
        some (Int.fdiv (e - p) minutesPerDay) := rfl
    rw [h1, hb, Int.mul_fdiv_cancel_left b (by norm_num [minutesPerDay])]
  refine ⟨hfrac, hfrac.trans ?_⟩
  have hiff := onTimeDelivery_some_iff ⟨"delivered", some p, some d, some e⟩ a b hA hE
  rw [hiff]
  rw [show minutesPerDay = 1440 from rfl] at ha hb
  omega

/-- Witness for C5 (amended): purchase at minute 0, delivered after exactly
one day, estimated at exactly two days — whole-day durations, predicates
agree. -/
theorem C5_seller_on_time_amended_witness :
    ((sellerIsOnTime 0 1440 2880 = true) ↔ (1440 : ℤ) ≤ 2880) ∧
    ((sellerIsOnTime 0 1440 2880 = true) ↔
      (onTimeDelivery ⟨"delivered", some 0, some 1440, some 2880⟩ = some "On Time")) :=
  C5_seller_on_time_amended 0 1440 2880 (by decide) (by decide)

/-! ### C7 -/

/-- **C7 counterexample.** One customer purchasing in months 1 and 2: month 2
appears in `monthly_metrics` with one unique customer but *zero* new
customers, so the left merge leaves `new_customers` missing and
`returning_customers = unique - new` is missing too — the equation
`returning + new = unique` fails for that month. -/
theorem C7_counterexample :
    ¬ (∀ row ∈ monthlyCustomerRows monthPopRepeat,
        ∃ (n : ℕ) (r : ℤ), row.newCustomers = some n ∧ row.returningCustomers = some r ∧
          r + (n : ℤ) = (row.uniqueCustomers : ℤ) ∧ 0 ≤ r) := by
  intro h
  have hmem : (⟨2, 1, none, none⟩ : MonthlyRow) ∈ monthlyCustomerRows monthPopRepeat := by
    decide
  obtain ⟨n, r, hn, _, _, _⟩ := h _ hmem
  exact Option.noConfusion hn

theorem newCustomersIn_le (rows : List DeliveredOrderMonth) (m : ℕ) :
    newCustomersIn rows m ≤ uniqueCustomersIn rows m := by
  unfold newCustomersIn uniqueCustomersIn
  rw [← List.card_toFinset, ← List.card_toFinset]
  apply Finset.card_le_card
  intro x hx
  rw [List.mem_toFinset] at hx ⊢
  obtain ⟨r, hr, hxr⟩ := List.mem_map.mp hx
  have hmem := List.mem_filter.mp hr
  refine List.mem_map.mpr ⟨r, List.mem_filter.mpr ⟨hmem.1, ?_⟩, hxr⟩
  have := hmem.2
  simp only [decide_eq_true_eq] at this ⊢
  exact this.1

/-- **C7 (amended).** For every month whose `new_customers` value is present
(i.e. at least one new customer), `returning_customers` is present,
non-negative, and `returning + new = unique`; a month all of whose customers
first purchased earlier gets missing `new_customers` and missing
`returning_customers` instead. -/
theorem C7_returning_plus_new (rows : List DeliveredOrderMonth) (row : MonthlyRow)
    (hrow : row ∈ monthlyCustomerRows rows) (n : ℕ) (hn : row.newCustomers = some n) :
    ∃ r : ℤ, row.returningCustomers = some r ∧ r + (n : ℤ) = (row.uniqueCustomers : ℤ) ∧
      0 ≤ r := by
  simp only [monthlyCustomerRows] at hrow
  obtain ⟨m, hm, hbuild⟩ := List.mem_map.mp hrow
  by_cases h0 : newCustomersIn rows m = 0
  · rw [if_pos h0] at hbuild
    rw [← hbuild] at hn
    exact Option.noConfusion hn
  · rw [if_neg h0] at hbuild
    rw [← hbuild] at hn ⊢
    simp only [Option.some.injEq] at hn
    subst hn
    have hle := newCustomersIn_le rows m
    refine ⟨(uniqueCustomersIn rows m : ℤ) - (newCustomersIn rows m : ℤ), rfl, by ring, ?_⟩
    omega

/-- Witness for C7 (amended): in the two-month population, month 1 has one
new customer and zero returning customers. -/
theorem C7_returning_plus_new_witness :
    ∃ r : ℤ, (⟨1, 1, some 1, some 0⟩ : MonthlyRow).returningCustomers = some r ∧
      r + ((1 : ℕ) : ℤ) = (((⟨1, 1, some 1, some 0⟩ : MonthlyRow).uniqueCustomers : ℕ) : ℤ) ∧
      0 ≤ r :=
  C7_returning_plus_new monthPopRepeat ⟨1, 1, some 1, some 0⟩ (by decide) 1 (by decide)

/-! ### C6 -/

theorem countP_lt_of_mem {α : Type} {p q : α → Bool} {l : List α}
    (hmono : ∀ x ∈ l, p x = true → q x = true) {a : α} (ha : a ∈ l)
    (hqa : q a = true) (hpa : p a = false) : l.countP p < l.countP q := by
  induction l with
  | nil => exact absurd ha (List.not_mem_nil a)
  | cons x xs ih =>
    rw [List.countP_cons, List.countP_cons]
    rcases List.mem_cons.mp ha with rfl | hmem
    · have hle : xs.countP p ≤ xs.countP q :=
        List.countP_mono_left (fun y hy => hmono y (List.mem_cons_of_mem _ hy))
      rw [hpa, hqa]
      simp only [Bool.false_eq_true, if_false, if_true]
      omega
    · have hstrict := ih (fun y hy => hmono y (List.mem_cons_of_mem _ hy)) hmem
      by_cases hpx : p x = true
      · rw [hpx, hmono x (List.mem_cons_self x xs) hpx]
        omega
      · rw [Bool.not_eq_true] at hpx
        rw [hpx]
        by_cases hqx : q x = true
        · rw [hqx]
          simp only [Bool.false_eq_true, if_false, if_true]
          omega
        · rw [Bool.not_eq_true] at hqx
          rw [hqx]
          simp only [Bool.false_eq_true, if_false]
          omega

/-- **C6.** Seller ranks follow minimum-rank-on-ties over `composite_score`
descending: sellers with equal scores receive equal ranks, a strictly higher
score receives a strictly smaller rank, and on the concrete scenario
`[87.50, 87.50, 90.00]` the ranks are `[2, 2, 1]`. -/
theorem C6_seller_rank_min_on_ties (scores : List (Option ℚ)) (i j : ℕ) (vi vj : ℚ)
    (hi : scores[i]? = some (some vi)) (hj : scores[j]? = some (some vj)) :
    ((vi = vj → (rankSellersMinDesc scores)[i]? = (rankSellersMinDesc scores)[j]?) ∧
     (vj < vi → ∀ ri rj, (rankSellersMinDesc scores)[i]? = some (some ri) →
        (rankSellersMinDesc scores)[j]? = some (some rj) → ri < rj)) ∧
    rankSellersMinDesc [some (mkRat 175 2), some (mkRat 175 2), some 90] =
      [some 2, some 2, some 1] := by
  have hmapi : (rankSellersMinDesc scores)[i]? = some (some (1 + scores.countP (fun t =>
      match t with | some w => decide (vi < w) | none => false))) := by
    unfold rankSellersMinDesc
    rw [List.getElem?_map, hi]
    rfl
  have hmapj : (rankSellersMinDesc scores)[j]? = some (some (1 + scores.countP (fun t =>
      match t with | some w => decide (vj < w) | none => false))) := by
    unfold rankSellersMinDesc
    rw [List.getElem?_map, hj]
    rfl
  refine ⟨⟨?_, ?_⟩, by decide⟩
  · intro heq
    subst heq
    rw [hmapi, hmapj]
  · intro hlt ri rj hri hrj
    have hri' : ri = 1 + scores.countP (fun t =>
        match t with | some w => decide (vi < w) | none => false) :=
      Option.some.inj (Option.some.inj (hri.symm.trans hmapi))
    have hrj' : rj = 1 + scores.countP (fun t =>
        match t with | some w => decide (vj < w) | none => false) :=
      Option.some.inj (Option.some.inj (hrj.symm.trans hmapj))
    have hmem : (some vi : Option ℚ) ∈ scores := by
      have := List.getElem?_eq_some.mp hi
      obtain ⟨hlen, hget⟩ := this
      exact hget ▸ List.getElem_mem hlen
    have hmono : ∀ t ∈ scores,
        (match t with | some w => decide (vi < w) | none => false) = true →
        (match t with | some w => decide (vj < w) | none => false) = true := by
      intro t _ hpt
      cases t with
      | none => exact Bool.noConfusion hpt
      | some w =>
        simp only [decide_eq_true_eq] at hpt ⊢
        exact lt_trans hlt hpt
    have hqa : (match (some vi : Option ℚ) with
        | some w => decide (vj < w) | none => false) = true := by
      show decide (vj < vi) = true
      exact decide_eq_true hlt
    have hpa : (match (some vi : Option ℚ) with
        | some w => decide (vi < w) | none => false) = false := by
      show decide (vi < vi) = false
      exact decide_eq_false (lt_irrefl vi)
    have := countP_lt_of_mem hmono hmem hqa hpa
    omega

/-- Witness for C6: on scores `[90, 80]` the higher score gets rank 1, the
lower rank 2, and the concrete tie scenario evaluates to `[2, 2, 1]`. -/
theorem C6_seller_rank_min_on_ties_witness :
    (rankSellersMinDesc [some (mkRat 175 2), some (mkRat 175 2), some 90] =
      [some 2, some 2, some 1]) ∧ (1 : ℕ) < 2 :=
  ⟨(C6_seller_rank_min_on_ties [some 90, some 80] 0 1 90 80 (by decide) (by decide)).2,
   (C6_seller_rank_min_on_ties [some 90, some 80] 0 1 90 80 (by decide) (by decide)).1.2
     (by decide) 1 2 (by decide) (by decide)⟩

/-! ### C3 -/

theorem segmentCustomer_unknown (r f : Option ℕ) (h : r = none ∨ f = none) :
    segmentCustomer r f = "Unknown" := by
  rcases h with rfl | rfl
  · cases f <;> rfl
  · cases r <;> rfl

theorem mem_segOutput {orders : List SegOrder} {pays : List PaymentRow} {row : SegRow}
    (h : row ∈ segOutput orders pays) :
    ∃ (rS fS mS : List (Option ℕ)) (i : ℕ),
      i < (sortedDistinct ((deliveredOrders orders).map (fun o => o.customer))).length ∧
      row = buildSegRow (deliveredOrders orders) pays
        (sortedDistinct ((deliveredOrders orders).map (fun o => o.customer))) rS fS mS i := by
  rcases hex : exportCustomerSegments orders pays with e | rs
  · unfold segOutput at h
    rw [hex] at h
    exact absurd h (List.not_mem_nil row)
  · unfold segOutput at h
    rw [hex] at h
    simp only [exportCustomerSegments] at hex
    split at hex
    · exact Except.noConfusion hex
    · split at hex
      · exact Except.noConfusion hex
      · split at hex
        · exact Except.noConfusion hex
        · have hrs := Except.ok.inj hex
          rw [← hrs] at h
          obtain ⟨i, hirange, hieq⟩ := List.mem_map.mp h
          exact ⟨_, _, _, i, List.mem_range.mp hirange, hieq.symm⟩

/-- **C3 counterexample.** In the mixed population (customer 6 has a missing
purchase timestamp, hence a missing recency score) the combined code of the
affected customer is the concatenation `"<NA>55"` — the `'<NA>'` marker is
substituted — not the literal `'Unknown'` the claim requires. -/
theorem C3_counterexample :
    ¬ (∀ row ∈ segOutput segMixedOrders segMixedPays,
        (row.rScore = none ∨ row.fScore = none ∨ row.mScore = none) →
        row.rfmScore = "Unknown" ∧ row.segment = "Unknown") := by decide

/-- **C3 (amended).** For every output row, the combined code is the
concatenation of the three scores rendered by `astype(str)` — a missing score
contributes the marker `'<NA>'`, not `'Unknown'` — while the *segment* is
`'Unknown'` whenever the recency or frequency score is missing (a missing
monetary score alone does not affect the segment). -/
theorem C3_rfm_string_amended (orders : List SegOrder) (pays : List PaymentRow) :
    ∀ row ∈ segOutput orders pays,
      row.rfmScore = scoreText row.rScore ++ scoreText row.fScore ++ scoreText row.mScore ∧
      ((row.rScore = none ∨ row.fScore = none) → row.segment = "Unknown") := by
  intro row hrow
  obtain ⟨rS, fS, mS, i, hi, hrow_eq⟩ := mem_segOutput hrow
  subst hrow_eq
  exact ⟨rfl, fun hnone => segmentCustomer_unknown _ _ hnone⟩

/-- Witness for C3 (amended): the concrete output row of customer 6 of the
mixed population. -/
theorem C3_rfm_string_amended_witness :
    segMixedRow6.rfmScore =
      scoreText segMixedRow6.rScore ++ scoreText segMixedRow6.fScore ++
        scoreText segMixedRow6.mScore ∧
    ((segMixedRow6.rScore = none ∨ segMixedRow6.fScore = none) →
      segMixedRow6.segment = "Unknown") :=
  C3_rfm_string_amended segMixedOrders segMixedPays segMixedRow6 (by decide)

/-! ### C9 -/

theorem filter_key_length_le {α : Type} (l : List α) (k : α → ℕ) (key : ℕ)
    (h : (l.map k).Nodup) : (l.filter (fun b => k b = key)).length ≤ 1 := by
  induction l with
  | nil => simp
  | cons x xs ih =>
    rw [List.map_cons, List.nodup_cons] at h
    rw [List.filter_cons]
    by_cases hx : k x = key
    · rw [if_pos (decide_eq_true hx)]
      have hempty : xs.filter (fun b => k b = key) = [] := by
        rw [List.filter_eq_nil_iff]
        intro y hy
        simp only [decide_eq_true_eq]
        intro hky
        exact h.1 (List.mem_map.mpr ⟨y, hy, by rw [hky, hx]⟩)
      rw [hempty]
      simp
    · rw [if_neg (by simp [hx])]
      exact ih h.2

theorem pandasLeftMerge_map_fst {α β : Type} (left : List α) (right : List β)
    (kl : α → ℕ) (kr : β → ℕ) (h : (right.map kr).Nodup) :
    (pandasLeftMerge left right kl kr).map Prod.fst = left := by
  induction left with
  | nil => rfl
  | cons a l ih =>
    unfold pandasLeftMerge at ih ⊢
    rw [List.flatMap_cons, List.map_append, ih]
    rcases hms : right.filter (fun b => kr b = kl a) with _ | ⟨b, rest⟩
    · simp [hms]
    · have hlen := filter_key_length_le right kr (kl a) h
      rw [hms] at hlen
      simp only [List.length_cons] at hlen
      have hrest : rest = [] := List.length_eq_zero.mp (by omega)
      subst hrest
      simp [hms]

theorem sortedDistinct_nodup (l : List ℕ) : (sortedDistinct l).Nodup :=
  (List.perm_insertionSort (· ≤ ·) l.dedup).nodup_iff.mpr (List.nodup_dedup l)

theorem aggPayments_keys (ps : List OrderPaymentRow) :
    (aggPayments ps).map (fun p => p.orderId) = paymentKeys ps := by
  unfold aggPayments
  rw [List.map_map]
  exact List.map_id'' (fun _ => rfl) _

theorem aggPayments_keys_nodup (ps : List OrderPaymentRow) :
    ((aggPayments ps).map (fun p => p.orderId)).Nodup := by
  rw [aggPayments_keys]
  exact sortedDistinct_nodup _

theorem dropDupFirstAux_keys_nodup (rs : List ReviewRow) :
    ∀ seen : List ℕ, ((dropDupFirstAux seen rs).map (fun r => r.orderId)).Nodup ∧
      ∀ k ∈ (dropDupFirstAux seen rs).map (fun r => r.orderId), k ∉ seen := by
  induction rs with
  | nil => exact fun seen => ⟨List.nodup_nil, by simp [dropDupFirstAux]⟩
  | cons r rs ih =>
    intro seen
    unfold dropDupFirstAux
    by_cases hmem : r.orderId ∈ seen
    · rw [if_pos hmem]
      exact ih seen
    · rw [if_neg hmem]
      obtain ⟨hnodup, hnotin⟩ := ih (r.orderId :: seen)
      rw [List.map_cons]
      refine ⟨List.nodup_cons.mpr ⟨fun hin => (hnotin _ hin) (List.mem_cons_self _ _), hnodup⟩, ?_⟩
      intro k hk
      rcases List.mem_cons.mp hk with rfl | hk'
      · exact hmem
      · exact fun hkseen => (hnotin k hk') (List.mem_cons_of_mem _ hkseen)

theorem dropDupFirst_keys_nodup (rs : List ReviewRow) :
    ((dropDupFirst rs).map (fun r => r.orderId)).Nodup :=
  (dropDupFirstAux_keys_nodup rs []).1

/-- **C9.** With customers keyed uniquely (their table's primary key), the
payment side aggregated to one row per `order_id` and the review side
deduplicated to one row per `order_id`, the chained left joins of
`orders_fact` preserve the orders table exactly: projecting the order part of
the joined rows gives back the orders list (so no order row is dropped —
even with an unmatched join key — and none is duplicated), and the extract
has exactly one row per orders row. -/
theorem C9_one_row_per_order (orders : List OrderRow) (customers : List CustomerRow)
    (pays : List OrderPaymentRow) (reviews : List ReviewRow)
    (hc : (customers.map (fun c => c.customerId)).Nodup) :
    (ordersFactJoined orders customers pays reviews).map (fun t => t.1.1.1) = orders ∧
    (ordersFactJoined orders customers pays reviews).length = orders.length := by
  have h1 : (pandasLeftMerge orders customers (fun o => o.customerId)
      (fun c => c.customerId)).map Prod.fst = orders :=
    pandasLeftMerge_map_fst _ _ _ _ hc
  have h2 : (pandasLeftMerge (pandasLeftMerge orders customers (fun o => o.customerId)
      (fun c => c.customerId)) (aggPayments pays) (fun t => t.1.orderId)
      (fun p => p.orderId)).map Prod.fst = _ :=
    pandasLeftMerge_map_fst _ _ _ _ (aggPayments_keys_nodup pays)
  have h3 : (ordersFactJoined orders customers pays reviews).map Prod.fst = _ :=
    pandasLeftMerge_map_fst _ _ _ _ (dropDupFirst_keys_nodup reviews)
  have hmap : (ordersFactJoined orders customers pays reviews).map (fun t => t.1.1.1) = orders := by
    have hcomp : (ordersFactJoined orders customers pays reviews).map (fun t => t.1.1.1) =
        (((ordersFactJoined orders customers pays reviews).map Prod.fst).map Prod.fst).map
          Prod.fst := by
      rw [List.map_map, List.map_map]
      rfl
    rw [hcomp, h3, h2, h1]
  refine ⟨hmap, ?_⟩
  have hlen := congrArg List.length hmap
  rwa [List.length_map] at hlen

/-- Witness for C9: the concrete tables with an undelivered order, an order
with no matching customer, a double payment and a duplicate review. -/
theorem C9_one_row_per_order_witness :
    (ordersFactJoined joinOrders joinCustomers joinPays joinReviews).map (fun t => t.1.1.1) =
      joinOrders ∧
    (ordersFactJoined joinOrders joinCustomers joinPays joinReviews).length =
      joinOrders.length :=
  C9_one_row_per_order joinOrders joinCustomers joinPays joinReviews (by decide)

/-! ### C8 -/

theorem listMax?_spec {α : Type} [LinearOrder α] (l : List α) :
    (l = [] ∧ listMax? l = none) ∨
      ∃ m, listMax? l = some m ∧ m ∈ l ∧ ∀ x ∈ l, x ≤ m := by
  induction l with
  | nil => exact Or.inl ⟨rfl, rfl⟩
  | cons y ys ih =>
    right
    rcases ih with ⟨hnil, hnone⟩ | ⟨m, hm, hmem, hall⟩
    · subst hnil
      refine ⟨y, rfl, List.mem_cons_self y [], ?_⟩
      intro x hx
      rcases List.mem_cons.mp hx with rfl | hx'
      · exact le_refl x
      · exact absurd hx' (List.not_mem_nil x)
    · refine ⟨max y m, ?_, ?_, ?_⟩
      · show listMax? (y :: ys) = some (max y m)
        simp [listMax?, hm]
      · rcases le_total y m with h | h
        · exact List.mem_cons_of_mem _ (by rw [max_eq_right h]; exact hmem)
        · rw [max_eq_left h]
          exact List.mem_cons_self _ _
      · intro x hx
        rcases List.mem_cons.mp hx with rfl | hx'
        · exact le_max_left _ _
        · exact le_trans (hall x hx') (le_max_right _ _)

theorem listMax?_of_mem {α : Type} [LinearOrder α] {l : List α} {x : α} (hx : x ∈ l) :
    ∃ m, listMax? l = some m ∧ x ≤ m ∧ m ∈ l := by
  rcases listMax?_spec l with ⟨hnil, _⟩ | ⟨m, hm, hmem, hall⟩
  · subst hnil
    exact absurd hx (List.not_mem_nil x)
  · exact ⟨m, hm, hall x hx, hmem⟩

/-- **C8.** Whenever every order of the input has a purchase timestamp, every
row of the `customer_segments` output has `frequency ≥ 1` (each grouped
customer has at least one delivered order) and a present, non-negative
recency — the analysis date is one day after the population-wide maximum
purchase timestamp, so `recency = (analysis_date - last_purchase).days ≥ 0`. -/
theorem C8_frequency_recency_bounds (orders : List SegOrder) (pays : List PaymentRow)
    (hts : ∀ o ∈ orders, o.purchaseTs ≠ none) (row : SegRow)
    (hrow : row ∈ segOutput orders pays) :
    1 ≤ row.frequency ∧ ∃ rc, row.recency = some rc ∧ 0 ≤ rc := by
  obtain ⟨rS, fS, mS, i, hi, hroweq⟩ := mem_segOutput hrow
  subst hroweq
  have hcmem : (sortedDistinct ((deliveredOrders orders).map (fun o => o.customer))).getD i 0 ∈
      sortedDistinct ((deliveredOrders orders).map (fun o => o.customer)) := by
    rw [List.getD_eq_getElem _ _ hi]
    exact List.getElem_mem hi
  have hc2 : (sortedDistinct ((deliveredOrders orders).map (fun o => o.customer))).getD i 0 ∈
      (deliveredOrders orders).map (fun o => o.customer) := by
    have hperm := List.perm_insertionSort (· ≤ ·)
      (((deliveredOrders orders).map (fun o => o.customer)).dedup)
    exact List.mem_dedup.mp (hperm.mem_iff.mp hcmem)
  obtain ⟨o, ho, hoc⟩ := List.mem_map.mp hc2
  have hgrp : o ∈ custGroup (deliveredOrders orders)
      ((sortedDistinct ((deliveredOrders orders).map (fun o => o.customer))).getD i 0) :=
    List.mem_filter.mpr ⟨ho, by simp [hoc]⟩
  refine ⟨List.length_pos_of_mem hgrp, ?_⟩
  have hofull : o ∈ orders := List.mem_of_mem_filter ho
  obtain ⟨t0, ht0⟩ := Option.ne_none_iff_exists'.mp (hts o hofull)
  have ht0grp : t0 ∈ (custGroup (deliveredOrders orders)
      ((sortedDistinct ((deliveredOrders orders).map (fun o => o.customer))).getD i 0)).filterMap
        (fun o => o.purchaseTs) :=
    List.mem_filterMap.mpr ⟨o, hgrp, ht0⟩
  obtain ⟨t, ht, htle, htmem⟩ := listMax?_of_mem ht0grp
  have htall : t ∈ (deliveredOrders orders).filterMap (fun o => o.purchaseTs) := by
    obtain ⟨a, hag, hat⟩ := List.mem_filterMap.mp htmem
    exact List.mem_filterMap.mpr ⟨a, List.mem_of_mem_filter hag, hat⟩
  obtain ⟨M, hM, hMle, _⟩ := listMax?_of_mem htall
  refine ⟨Int.fdiv (M + minutesPerDay - t) minutesPerDay, ?_, ?_⟩
  · show custRecency (deliveredOrders orders)
      ((sortedDistinct ((deliveredOrders orders).map (fun o => o.customer))).getD i 0) = some _
    unfold custRecency analysisDate custLastTs
    rw [hM, ht]
    rfl
  · have h14 : minutesPerDay = 1440 := rfl
    refine Int.fdiv_nonneg ?_ ?_
    · omega
    · rw [h14]
      norm_num

/-- Witness for C8: the first output row of the regular five-customer
population has frequency 1 and recency 41. -/
theorem C8_frequency_recency_bounds_witness :
    1 ≤ segDatedRow1.frequency ∧ ∃ rc, segDatedRow1.recency = some rc ∧ 0 ≤ rc :=
  C8_frequency_recency_bounds segDatedOrders segDatedPays (by decide) segDatedRow1 (by decide)

/-! ### C10 -/

theorem rankFirstAt_lt_of_lex (xs : List ℚ) (i j : ℕ) (hi : i < xs.length)
    (hlex : xs.getD i 0 < xs.getD j 0 ∨ (xs.getD i 0 = xs.getD j 0 ∧ i < j)) :
    rankFirstAt xs i < rankFirstAt xs j := by
  unfold rankFirstAt
  have hkey := countP_lt_of_mem (l := List.range xs.length)
    (p := fun k => decide (xs.getD k 0 < xs.getD i 0) ||
      (decide (xs.getD k 0 = xs.getD i 0) && decide (k < i)))
    (q := fun k => decide (xs.getD k 0 < xs.getD j 0) ||
      (decide (xs.getD k 0 = xs.getD j 0) && decide (k < j)))
    ?_ (a := i) (List.mem_range.mpr hi) ?_ ?_
  · omega
  · intro k _ hpk
    simp only [Bool.or_eq_true, Bool.and_eq_true, decide_eq_true_eq] at hpk ⊢
    rcases hlex with hlt | ⟨heq, hij⟩
    · rcases hpk with h | ⟨h, _⟩
      · exact Or.inl (lt_trans h hlt)
      · exact Or.inl (h ▸ hlt)
    · rcases hpk with h | ⟨h, hk⟩
      · exact Or.inl (heq ▸ h)
      · exact Or.inr ⟨heq ▸ h, lt_trans hk hij⟩
  · simp only [Bool.or_eq_true, Bool.and_eq_true, decide_eq_true_eq]
    exact hlex
  · simp only [Bool.or_eq_true, Bool.and_eq_true, decide_eq_true_eq, lt_irrefl, false_and,
      or_self]
    rfl

theorem rankFirstAt_pos (xs : List ℚ) (i : ℕ) : 1 ≤ rankFirstAt xs i := by
  unfold rankFirstAt
  omega

theorem rankFirstAt_le (xs : List ℚ) (i : ℕ) (hi : i < xs.length) :
    rankFirstAt xs i ≤ xs.length := by
  unfold rankFirstAt
  have hkey := countP_lt_of_mem (l := List.range xs.length)
    (p := fun k => decide (xs.getD k 0 < xs.getD i 0) ||
      (decide (xs.getD k 0 = xs.getD i 0) && decide (k < i)))
    (q := fun _ => true)
    (fun _ _ _ => rfl) (a := i) (List.mem_range.mpr hi) rfl ?_
  · have := List.countP_true (α := ℕ)
    have hlen : (List.range xs.length).countP (fun _ => true) = xs.length := by
      rw [List.countP_true, List.length_range]
    omega
  · simp only [Bool.or_eq_true, Bool.and_eq_true, decide_eq_true_eq, lt_irrefl, false_and,
      or_self]
    rfl

theorem rankFirst_nat_perm (xs : List ℚ) :
    ((List.range xs.length).map (rankFirstAt xs)).Perm
      ((List.range xs.length).map (fun i => i + 1)) := by
  have hnodup1 : ((List.range xs.length).map (rankFirstAt xs)).Nodup := by
    refine List.Nodup.map_on ?_ (List.nodup_range _)
    intro i hi j hj heq
    rw [List.mem_range] at hi hj
    by_contra hne
    rcases lt_trichotomy (xs.getD i 0) (xs.getD j 0) with h | h | h
    · exact absurd heq (Nat.ne_of_lt (rankFirstAt_lt_of_lex xs i j hi (Or.inl h)))
    · rcases Nat.lt_or_ge i j with hij | hij
      · exact absurd heq (Nat.ne_of_lt (rankFirstAt_lt_of_lex xs i j hi (Or.inr ⟨h, hij⟩)))
      · have hji : j < i := by omega
        exact absurd heq.symm
          (Nat.ne_of_lt (rankFirstAt_lt_of_lex xs j i hj (Or.inr ⟨h.symm, hji⟩)))
    · exact absurd heq.symm (Nat.ne_of_lt (rankFirstAt_lt_of_lex xs j i hj (Or.inl h)))
  have hnodup2 : ((List.range xs.length).map (fun i => i + 1)).Nodup :=
    List.Nodup.map (fun a b hab => by omega) (List.nodup_range _)
  refine List.perm_of_nodup_nodup_toFinset_eq hnodup1 hnodup2 ?_
  have hsub : ((List.range xs.length).map (rankFirstAt xs)).toFinset ⊆
      ((List.range xs.length).map (fun i => i + 1)).toFinset := by
    intro v hv
    rw [List.mem_toFinset] at hv ⊢
    obtain ⟨i, hi, hiv⟩ := List.mem_map.mp hv
    rw [List.mem_range] at hi
    have h1 := rankFirstAt_pos xs i
    have h2 := rankFirstAt_le xs i hi
    refine List.mem_map.mpr ⟨v - 1, List.mem_range.mpr (by omega), by omega⟩
  refine Finset.eq_of_subset_of_card_le hsub ?_
  rw [List.toFinset_card_of_nodup hnodup1, List.toFinset_card_of_nodup hnodup2,
    List.length_map, List.length_map]

theorem rankFirst_perm_ramp (xs : List ℚ) : (rankFirst xs).Perm (rampList xs.length) := by
  unfold rankFirst rampList
  have h := (rankFirst_nat_perm xs).map (fun k : ℕ => mkRat k 1)
  rw [List.map_map, List.map_map] at h
  exact h

theorem rampList_sorted (n : ℕ) : List.Sorted (· ≤ ·) (rampList n) := by
  unfold rampList
  rw [List.Sorted, List.pairwise_map]
  refine List.Pairwise.imp ?_ (List.pairwise_lt_range n)
  intro a b hab
  rw [mkRat_natCast, mkRat_natCast]
  exact_mod_cast Nat.le_of_lt (by omega)

theorem sorted_rankFirst_eq (xs : List ℚ) :
    List.insertionSort (· ≤ ·) (rankFirst xs) = rampList xs.length :=
  List.eq_of_perm_of_sorted
    ((List.perm_insertionSort _ _).trans (rankFirst_perm_ramp xs))
    (List.sorted_insertionSort _ _)
    (rampList_sorted _)

theorem rampList_length (n : ℕ) : (rampList n).length = n := by
  unfold rampList
  rw [List.length_map, List.length_range]

theorem rampList_getD (n k : ℕ) (hk : k < n) :
    (rampList n).getD k 0 = mkRat ((k + 1 : ℕ) : ℤ) 1 := by
  unfold rampList
  rw [List.getD_eq_getElem?_getD, List.getElem?_map, List.getElem?_range hk]
  rfl

theorem quantileSorted_ramp (n : ℕ) (p : ℚ) (hn : 1 ≤ n) (hp0 : 0 ≤ p) (hp1 : p ≤ 1) :
    quantileSorted (rampList n) p = 1 + ((n : ℚ) - 1) * p := by
  have hq : qmul (qsub (mkRat (n : ℤ) 1) 1) p = ((n : ℚ) - 1) * p := by
    rw [qmul_eq, qsub_eq, mkRat_natCast]
  simp only [quantileSorted, rampList_length, hq]
  have hv0 : 0 ≤ ((n : ℚ) - 1) * p := by
    have h1 : (1 : ℚ) ≤ (n : ℚ) := by exact_mod_cast hn
    have := sub_nonneg.mpr h1
    positivity
  have hvle : ((n : ℚ) - 1) * p ≤ (n : ℚ) - 1 := by
    have h1 : (1 : ℚ) ≤ (n : ℚ) := by exact_mod_cast hn
    nlinarith
  have hfl0 : 0 ≤ ⌊((n : ℚ) - 1) * p⌋ := Int.floor_nonneg.mpr hv0
  have hz : (⌊((n : ℚ) - 1) * p⌋.toNat : ℤ) = ⌊((n : ℚ) - 1) * p⌋ := Int.toNat_of_nonneg hfl0
  have hlocast : ((⌊((n : ℚ) - 1) * p⌋.toNat : ℕ) : ℚ) ≤ ((n : ℚ) - 1) * p := by
    have h1 := Int.floor_le (((n : ℚ) - 1) * p)
    rw [← hz] at h1
    exact_mod_cast h1
  have hlt1 : ((n : ℚ) - 1) * p < ((⌊((n : ℚ) - 1) * p⌋.toNat : ℕ) : ℚ) + 1 := by
    have h1 := Int.lt_floor_add_one (((n : ℚ) - 1) * p)
    rw [← hz] at h1
    exact_mod_cast h1
  have hlole : ⌊((n : ℚ) - 1) * p⌋.toNat ≤ n - 1 := by
    have h4 : ⌊(n : ℚ) - 1⌋ = (n : ℤ) - 1 := by
      rw [show ((n : ℚ) - 1) = (((n : ℤ) - 1 : ℤ) : ℚ) by push_cast; ring, Int.floor_intCast]
    have h2 : ⌊((n : ℚ) - 1) * p⌋ ≤ (n : ℤ) - 1 := h4 ▸ Int.floor_le_floor hvle
    omega
  by_cases hcase : ⌊((n : ℚ) - 1) * p⌋.toNat + 1 < n
  · rw [if_pos hcase]
    rw [rampList_getD n _ (by omega), rampList_getD n (⌊((n : ℚ) - 1) * p⌋.toNat + 1) (by omega)]
    simp only [qadd_eq, qsub_eq, qmul_eq, mkRat_natCast]
    push_cast
    ring
  · rw [if_neg hcase]
    rw [rampList_getD n (n - 1) (by omega)]
    have hloeq : ⌊((n : ℚ) - 1) * p⌋.toNat = n - 1 := by omega
    have hcast : ((n - 1 : ℕ) : ℚ) = (n : ℚ) - 1 := by
      rw [Nat.cast_sub hn]
      norm_num
    have hveq : ((n : ℚ) - 1) * p = (n : ℚ) - 1 := by
      have h1 : ((n - 1 : ℕ) : ℚ) ≤ ((n : ℚ) - 1) * p := by
        rw [← hloeq]
        exact hlocast
      rw [hcast] at h1
      linarith [hvle]
    rw [mkRat_natCast, hveq]
    have h2 : ((n - 1 + 1 : ℕ) : ℚ) = (n : ℚ) := by
      rw [Nat.sub_add_cancel hn]
    rw [h2]
    ring

theorem quantileEdges_ramp (n : ℕ) (hn : 1 ≤ n) :
    quantileEdges (rampList n) 5 =
      (List.range 6).map (fun k : ℕ => 1 + ((n : ℚ) - 1) * ((k : ℚ) / 5)) := by
  unfold quantileEdges
  refine List.map_congr_left ?_
  intro k hk
  rw [List.mem_range] at hk
  have hmk : (mkRat (↑k) 5 : ℚ) = (k : ℚ) / 5 := by
    rw [Rat.mkRat_eq_div]
    norm_num
  have hp0 : (0 : ℚ) ≤ mkRat (↑k) 5 := by
    rw [hmk]
    positivity
  have hp1 : (mkRat (↑k) 5 : ℚ) ≤ 1 := by
    rw [hmk, div_le_one (by norm_num)]
    exact_mod_cast Nat.le_of_lt_succ hk
  rw [quantileSorted_ramp n _ hn hp0 hp1, hmk]

theorem quantileEdges_ramp_nodup (n : ℕ) (hn : 2 ≤ n) :
    (quantileEdges (rampList n) 5).Nodup := by
  rw [quantileEdges_ramp n (by omega)]
  refine List.Nodup.map ?_ (List.nodup_range 6)
  intro a b hab
  have hc : ((n : ℚ) - 1) ≠ 0 := sub_ne_zero.mpr (by
    have h2 : (2 : ℚ) ≤ (n : ℚ) := by exact_mod_cast hn
    intro h1
    rw [h1] at h2
    norm_num at h2)
  have h2 : ((n : ℚ) - 1) * ((a : ℚ) / 5) = ((n : ℚ) - 1) * ((b : ℚ) / 5) := by
    have h1 := hab
    dsimp only at h1
    linarith
  have h3 := mul_left_cancel₀ hc h2
  have h4 : (a : ℚ) = (b : ℚ) := by linarith
  exact_mod_cast h4

theorem edges_map_getD (n : ℕ) (k : ℕ) (hk : k < 6) :
    ((List.range 6).map (fun k : ℕ => 1 + ((n : ℚ) - 1) * ((k : ℚ) / 5))).getD k 0 =
      1 + ((n : ℚ) - 1) * ((k : ℚ) / 5) := by
  rw [List.getD_eq_getElem?_getD, List.getElem?_map, List.getElem?_range hk]
  rfl

theorem binOf_edges_ramp (n : ℕ) (hn : 2 ≤ n) (r : ℕ) (hr1 : 1 ≤ r) (hrn : r ≤ n) :
    ∃ b, binOf (quantileEdges (rampList n) 5) (mkRat (r : ℤ) 1) = some b ∧ b < 5 := by
  rw [quantileEdges_ramp n (by omega)]
  have hr1' : (1 : ℚ) ≤ ((r : ℕ) : ℚ) := by exact_mod_cast hr1
  have hrn' : ((r : ℕ) : ℚ) ≤ (n : ℚ) := by exact_mod_cast hrn
  have hlen : ((List.range 6).map (fun k : ℕ => 1 + ((n : ℚ) - 1) * ((k : ℚ) / 5))).length = 6 := by
    rw [List.length_map, List.length_range]
  unfold binOf
  rw [if_neg ?hempty, if_neg ?hlow, hlen]
  case hempty =>
    intro habs
    rw [List.isEmpty_iff] at habs
    have := congrArg List.length habs
    rw [hlen] at this
    simp at this
  case hlow =>
    rw [edges_map_getD n 0 (by omega), mkRat_natCast]
    push_cast
    intro habs
    nlinarith
  have hsome : (((List.range (6 - 1))).find? (fun i => decide (mkRat ((r : ℕ) : ℤ) 1 ≤
      ((List.range 6).map (fun k : ℕ => 1 + ((n : ℚ) - 1) * ((k : ℚ) / 5))).getD (i + 1) 0))).isSome := by
    rw [List.find?_isSome]
    refine ⟨4, by decide, ?_⟩
    rw [decide_eq_true_eq, edges_map_getD n 5 (by omega), mkRat_natCast]
    push_cast
    nlinarith
  obtain ⟨b, hb⟩ := Option.isSome_iff_exists.mp hsome
  refine ⟨b, hb, ?_⟩
  have hmem := List.mem_of_find?_eq_some hb
  rw [List.mem_range] at hmem
  omega

theorem labels15_get (b : ℕ) (hb : b < 5) : ([1, 2, 3, 4, 5] : List ℕ)[b]? = some (b + 1) := by
  interval_cases b <;> rfl

theorem rankFirst_length (xs : List ℚ) : (rankFirst xs).length = xs.length := by
  unfold rankFirst
  rw [List.length_map, List.length_range]

/-- **C10.** For every frequency column with at least 5 customers, the
frequency score is defined — an integer 1–5 — for every customer, never
missing, because `rank(method='first')` turns the frequencies into the
distinct ranks `1…n` before quantile cutting, so the five bin edges are
strictly increasing and every rank falls into exactly one labelled bin (even
when all frequency values are identical). -/
theorem C10_f_score_always_defined (freqs : List ℚ) (h5 : 5 ≤ freqs.length) :
    ∃ out, fScoreColumn freqs = .ok out ∧ out.length = freqs.length ∧
      ∀ s ∈ out, ∃ k, s = some k ∧ 1 ≤ k ∧ k ≤ 5 := by
  have hn2 : 2 ≤ freqs.length := by omega
  have hpresent : ((rankFirst freqs).map some).filterMap id = rankFirst freqs := by
    rw [List.filterMap_map]
    simp
  have hsorted := sorted_rankFirst_eq freqs
  have hnodup := quantileEdges_ramp_nodup freqs.length hn2
  have hdedup := List.dedup_eq_self.mpr hnodup
  have hlen6 : (quantileEdges (rampList freqs.length) 5).length = 6 := by
    rw [quantileEdges_ramp _ (by omega), List.length_map, List.length_range]
  simp only [fScoreColumn, pdQcut, hpresent, hsorted, hdedup, Bool.false_eq_true, if_false]
  rw [if_neg (fun h => h.2 rfl), if_neg (by rw [hlen6]; simp)]
  refine ⟨_, rfl, ?_, ?_⟩
  · rw [List.length_map, List.length_map, rankFirst_length]
  · intro s hs
    obtain ⟨v?, hv?mem, hv?eq⟩ := List.mem_map.mp hs
    obtain ⟨rv, hrvmem, hrveq⟩ := List.mem_map.mp hv?mem
    unfold rankFirst at hrvmem
    obtain ⟨i, hirange, hriv⟩ := List.mem_map.mp hrvmem
    rw [List.mem_range] at hirange
    have h1 := rankFirstAt_pos freqs i
    have h2 := rankFirstAt_le freqs i hirange
    obtain ⟨b, hbin, hb5⟩ :=
      binOf_edges_ramp freqs.length hn2 (rankFirstAt freqs i) h1 h2
    refine ⟨b + 1, ?_, by omega, by omega⟩
    rw [← hv?eq, ← hrveq, ← hriv]
    show ((binOf (quantileEdges (rampList freqs.length) 5)
      (mkRat ((rankFirstAt freqs i : ℕ) : ℤ) 1)).bind (fun j => ([1, 2, 3, 4, 5] : List ℕ)[j]?)) =
        some (b + 1)
    rw [hbin]
    show ([1, 2, 3, 4, 5] : List ℕ)[b]? = some (b + 1)
    exact labels15_get b hb5

/-- Witness for C10: five customers all with frequency 1 — the heaviest
possible ties — still get defined frequency scores. -/
theorem C10_f_score_always_defined_witness :
    ∃ out, fScoreColumn [1, 1, 1, 1, 1] = .ok out ∧ out.length = ([1, 1, 1, 1, 1] : List ℚ).length ∧
      ∀ s ∈ out, ∃ k, s = some k ∧ 1 ≤ k ∧ k ≤ 5 :=
  C10_f_score_always_defined [1, 1, 1, 1, 1] (by decide)
